import Mathlib

/-!
# Verification of the draft-js content-tree transactions and HTML import

Shallow embedding of the model/transaction layer of the repository:

* `splitNestedBlockInContentState` (src/model/transaction/splitNestedBlockInContentState.js)
* `insertFragmentIntoContentState` (lib/insertFragmentIntoContentState.js)
* the HTML import pipeline (src/model/encoding/convertFromHTMLToContentBlocks.js):
  `joinChunks`, `genFragment`, `getBlockDividerChunk`, `getChunkForHTML`,
  `convertChunkToContentBlocks`, `convertFromHTMLtoContentBlocks`.

JavaScript strings are modelled by `String`, string `slice` by data-level
`List.take`/`List.drop` (`strTake`/`strDrop`), Immutable.js `OrderedMap`s by
ordered association lists of blocks keyed by their `key` field (`toOrderedMap`
reproduces the `set`-semantics: an existing key keeps its position and gets the
new value, a new key is appended).  Fallible operations (the `invariant` calls,
which throw in JS) are modelled with `Except String`.
-/

namespace DraftJs

/-- Modelled from the spec (§3): `CharacterMetadata` is not among the sources;
per the spec it is an immutable per-character attribute `{style: set<string>,
entity: optional<string>}` with value semantics.  The style set is an ordered
set of style names, modelled as a duplicate-free ordered list. -/
structure CharacterMetadata where
  style : List String
  entity : Option String
deriving Repr, DecidableEq

/-- Free-form block `data` map (`mapping<string,any>` in the spec); modelled as
an ordered association list of string pairs.  `Immutable.Map()` is `[]`. -/
abbrev DataMap := List (String × String)

/-- Embeds `ContentBlock` (src/model/immutable/ContentBlock.js): record with fields
`key`, `type`, `text`, `characterList`, `depth`, `data`, `parentKey` and the
same defaults as `defaultRecord` there.  `depth` is an `Int` because the
HTML import pipeline produces descriptors with depth `-1` (JS numbers). -/
structure ContentBlock where
  key : String := ""
  type : String := "unstyled"
  text : String := ""
  characterList : List CharacterMetadata := []
  depth : Int := 0
  data : DataMap := []
  parentKey : String := ""
deriving Repr, DecidableEq

/-- Modelled from the spec (§3): `SelectionState` is not among the sources; per
the spec it is the record `{anchorKey, anchorOffset, focusKey, focusOffset,
isBackward, hasFocus}`. -/
structure SelectionState where
  anchorKey : String := ""
  anchorOffset : Nat := 0
  focusKey : String := ""
  focusOffset : Nat := 0
  isBackward : Bool := false
  hasFocus : Bool := false
deriving Repr, DecidableEq

/-- Modelled from the spec (§3, Glossary): a collapsed selection has
anchor == focus, key and offset (the `isCollapsed()` method). -/
def SelectionState.isCollapsed (s : SelectionState) : Bool :=
  s.anchorKey = s.focusKey && s.anchorOffset = s.focusOffset

/-- Modelled from the spec (§3, §4.5): the start edge of a selection is the
focus edge when the selection is backward, the anchor edge otherwise
(the `getStartKey()` method). -/
def SelectionState.getStartKey (s : SelectionState) : String :=
  if s.isBackward then s.focusKey else s.anchorKey

/-- Modelled from the spec (§3, §4.5): offset companion of `getStartKey`
(the `getStartOffset()` method). -/
def SelectionState.getStartOffset (s : SelectionState) : Nat :=
  if s.isBackward then s.focusOffset else s.anchorOffset

/-- Modelled from the spec (§3): `ContentState` is not among the sources; the
transactions use it as a record holding the ordered block map and the
before/after selections, and `merge` on it replaces exactly those fields.
The ordered map is the list of blocks in document order, keyed by `key`. -/
structure ContentState where
  blockMap : List ContentBlock := []
  selectionBefore : SelectionState := {}
  selectionAfter : SelectionState := {}
deriving Repr, DecidableEq

/-- JS `string.slice(0, n)` (data-level). -/
def strTake (s : String) (n : Nat) : String := ⟨s.data.take n⟩

/-- JS `string.slice(n)` (data-level). -/
def strDrop (s : String) (n : Nat) : String := ⟨s.data.drop n⟩

/-- The keys of an ordered block map, in order. -/
def blockKeys (l : List ContentBlock) : List String := l.map (·.key)

/-- Embeds `Immutable.Map.set` semantics on an ordered block map: if the key is
already present the entry keeps its position and gets the new value, otherwise
the entry is appended. -/
def omSet (m : List ContentBlock) (b : ContentBlock) : List ContentBlock :=
  if m.any (fun x => x.key = b.key) then
    m.map (fun x => if x.key = b.key then b else x)
  else m ++ [b]

/-- Embeds `Seq.toOrderedMap()` / `BlockMapBuilder.createFromArray`: build an ordered
map from a sequence of keyed blocks, later values for a duplicated key
overwriting the earlier entry in place. -/
def toOrderedMap (l : List ContentBlock) : List ContentBlock := l.foldl omSet []

/-- Embeds `blockMap.get(key)`: first block with the given key. -/
def getBlock (m : List ContentBlock) (key : String) : Option ContentBlock :=
  m.find? (fun b => b.key = key)

/-- The collapsed selection `selectionState.merge({anchorKey: k, anchorOffset:
0, focusKey: k, focusOffset: 0, isBackward: false})` that every transaction
produces as its `selectionAfter`. -/
def collapsedAtStart (sel : SelectionState) (k : String) : SelectionState :=
  { sel with anchorKey := k, anchorOffset := 0,
             focusKey := k, focusOffset := 0, isBackward := false }

/-- Embeds `blockToSplit.merge({text: text.slice(0, offset), characterList:
chars.slice(0, offset), key: generateRandomKey(), parentKey})` — the `blockAbove`
of `splitNestedBlockInContentState`. -/
def blockAboveOf (blockToSplit : ContentBlock) (offset : Nat) (keyAbove : String) :
    ContentBlock :=
  { blockToSplit with
      text := strTake blockToSplit.text offset,
      characterList := blockToSplit.characterList.take offset,
      key := keyAbove,
      parentKey := blockToSplit.parentKey }

/-- Embeds `blockAbove.merge({key: generateRandomKey(), parentKey, text:
text.slice(offset), characterList: chars.slice(offset), data: Map()})` — the
`blockBelow` of `splitNestedBlockInContentState`. -/
def blockBelowOf (blockToSplit : ContentBlock) (offset : Nat)
    (keyAbove keyBelow : String) : ContentBlock :=
  { blockAboveOf blockToSplit offset keyAbove with
      key := keyBelow,
      parentKey := blockToSplit.parentKey,
      text := strDrop blockToSplit.text offset,
      characterList := blockToSplit.characterList.drop offset,
      data := [] }

/-- Embeds `blockToSplit.merge({text: '', characterList: List(), parentKey})` — the
`newEmptyBlock` of `splitNestedBlockInContentState`; note that its `key` is the
original block's key (the merge does not override it). -/
def newEmptyBlockOf (blockToSplit : ContentBlock) : ContentBlock :=
  { blockToSplit with
      text := "",
      characterList := [],
      parentKey := blockToSplit.parentKey }

/-- Embeds `blockMap.toSeq().takeUntil(v => v === blockToSplit)`. -/
def blocksBeforeOf (blockMap : List ContentBlock) (blockToSplit : ContentBlock) :
    List ContentBlock :=
  blockMap.takeWhile (fun v => v ≠ blockToSplit)

/-- Embeds `blockMap.toSeq().skipUntil(v => v === blockToSplit).rest()`. -/
def blocksAfterOf (blockMap : List ContentBlock) (blockToSplit : ContentBlock) :
    List ContentBlock :=
  (blockMap.dropWhile (fun v => v ≠ blockToSplit)).tail

/-- Embeds `splitNestedBlockInContentState`
(src/model/transaction/splitNestedBlockInContentState.js).

The two `generateRandomKey()` results are passed in as `keyAbove`/`keyBelow`:
the spec (§4.1, §9) requires a collision-free injected key generator, so key
freshness appears as a hypothesis of the theorems that need it.  The
`invariant` call (which throws in JS) is the `Except.error` branch; a missing
anchor block makes the JS code throw a `TypeError` on
`blockToSplit.getParentKey()`, modelled by the second error branch. -/
def splitNestedBlockInContentState (contentState : ContentState)
    (selectionState : SelectionState) (keyAbove keyBelow : String) :
    Except String ContentState :=
  if selectionState.isCollapsed then
    let key := selectionState.anchorKey
    let offset := selectionState.anchorOffset
    let blockMap := contentState.blockMap
    match getBlock blockMap key with
    | none => .error "TypeError: blockToSplit is undefined"
    | some blockToSplit =>
      let blockAbove := blockAboveOf blockToSplit offset keyAbove
      let blockBelow := blockBelowOf blockToSplit offset keyAbove keyBelow
      let newEmptyBlock := newEmptyBlockOf blockToSplit
      let blocksBefore := blocksBeforeOf blockMap blockToSplit
      let blocksAfter := blocksAfterOf blockMap blockToSplit
      if blockAbove.text.length = 0 then
        .ok { contentState with
                blockMap := toOrderedMap
                  (blocksBefore ++ [blockAbove, blockBelow] ++ blocksAfter),
                selectionBefore := selectionState,
                selectionAfter := collapsedAtStart selectionState blockAbove.key }
      else if blockAbove.text.length ≠ 0 ∧ blockBelow.text.length = 0 then
        .ok { contentState with
                blockMap := toOrderedMap
                  (blocksBefore ++ [blockAbove, newEmptyBlock] ++ blocksAfter),
                selectionBefore := selectionState,
                selectionAfter := collapsedAtStart selectionState newEmptyBlock.key }
      else
        .ok { contentState with
                blockMap := toOrderedMap
                  (blocksBefore ++ [blockAbove, newEmptyBlock, blockBelow] ++ blocksAfter),
                selectionBefore := selectionState,
                selectionAfter := collapsedAtStart selectionState newEmptyBlock.key }
  else .error "Selection range must be collapsed."

/-- Modelled from the spec (§4.3): `insertIntoList` is not among the sources;
per the spec the single-block fast path splices the fragment's characterList
"directly into the target block at the offset". -/
def insertIntoList (targetList toInsert : List CharacterMetadata) (offset : Nat) :
    List CharacterMetadata :=
  targetList.take offset ++ toInsert ++ targetList.drop offset

/-- Embeds `targetBlock.merge({text: text.slice(0, targetOffset) +
pastedBlock.getText() + text.slice(targetOffset), characterList:
insertIntoList(chars, pastedBlock.getCharacterList(), targetOffset), data:
pastedBlock.getData()})` — the `newBlock` of the single-block fast path of
`insertFragmentIntoContentState`. -/
def singlePasteBlock (targetBlock pastedBlock : ContentBlock) (targetOffset : Nat) :
    ContentBlock :=
  { targetBlock with
      text := strTake targetBlock.text targetOffset ++ pastedBlock.text ++
        strDrop targetBlock.text targetOffset,
      characterList :=
        insertIntoList targetBlock.characterList pastedBlock.characterList targetOffset,
      data := pastedBlock.data }

/-- Embeds `insertFragmentIntoContentState` (lib/insertFragmentIntoContentState.js).

The fragment (an ordered map of blocks) is its ordered list of blocks.
`generateRandomKey()` calls in the multi-block snippet branch draw from the
injected supply `genKeys` (spec §4.1/§9: injected collision-free generator).
JS `TypeError`s (missing target block on the fast path, `fragment.first()`
on an empty fragment) are `Except.error` branches.  In the non-snippet
multi-block branch the source populates `keysMap` at `fragment.key`, which is
`undefined` on an `OrderedMap`, so no block's (string) `parentKey` can ever
hit that entry; the lookup is therefore dropped and only the
empty-`parentKey` remap remains. -/
def insertFragmentIntoContentState (contentState : ContentState)
    (selectionState : SelectionState) (fragment : List ContentBlock)
    (genKeys : Nat → String) : Except String ContentState :=
  if selectionState.isCollapsed then
    let targetKey := selectionState.getStartKey
    let targetOffset := selectionState.getStartOffset
    let blockMap := contentState.blockMap
    match fragment with
    | [pastedBlock] =>
      match getBlock blockMap targetKey with
      | none => .error "TypeError: targetBlock is undefined"
      | some targetBlock =>
        let newBlock := singlePasteBlock targetBlock pastedBlock targetOffset
        let finalKey := targetKey
        let finalOffset := targetOffset + pastedBlock.text.length
        .ok { contentState with
                blockMap := omSet blockMap newBlock,
                selectionBefore := selectionState,
                selectionAfter :=
                  { selectionState with
                      anchorKey := finalKey, anchorOffset := finalOffset,
                      focusKey := finalKey, focusOffset := finalOffset,
                      isBackward := false } }
    | [] => .error "TypeError: fragment.first() is undefined"
    | appendToHead :: fragmentRest =>
      let processTarget : ContentBlock → List ContentBlock := fun block =>
        let headText := strTake block.text targetOffset
        let headCharacters := block.characterList.take targetOffset
        let modifiedHead : ContentBlock :=
          { block with
              text := headText ++ appendToHead.text,
              characterList := headCharacters ++ appendToHead.characterList,
              type := if headText ≠ "" then block.type else appendToHead.type,
              data := appendToHead.data }
        if appendToHead.type = "snippet" then
          let keysMap : List (String × String) :=
            fragmentRest.enum.map (fun p => (p.2.key, genKeys p.1))
          modifiedHead :: fragmentRest.map (fun fragmentBlock =>
            let parentInFragment := fragment.find? (fun b => b.key = fragmentBlock.parentKey)
            let newKey := (keysMap.lookup fragmentBlock.key).getD fragmentBlock.key
            match parentInFragment with
            | some pb =>
              if pb.type = "snippet" then
                { fragmentBlock with parentKey := modifiedHead.key, key := newKey }
              else
                { fragmentBlock with
                    parentKey := (keysMap.lookup fragmentBlock.parentKey).getD modifiedHead.parentKey,
                    key := newKey }
            | none =>
              { fragmentBlock with
                  parentKey := (keysMap.lookup fragmentBlock.parentKey).getD modifiedHead.parentKey,
                  key := newKey })
        else
          modifiedHead :: fragmentRest.map (fun fragmentBlock =>
            if fragmentBlock.parentKey = "" then
              { fragmentBlock with parentKey := modifiedHead.parentKey }
            else fragmentBlock)
      let newBlockArr := blockMap.foldl
        (fun acc block =>
          if block.key ≠ targetKey then acc ++ [block]
          else acc ++ processTarget block) []
      .ok { contentState with
              blockMap := toOrderedMap newBlockArr,
              selectionBefore := selectionState,
              selectionAfter := collapsedAtStart selectionState targetKey }
  else .error "`insertFragment` should only be called with a collapsed selection state."

/-! ## HTML import pipeline (src/model/encoding/convertFromHTMLToContentBlocks.js)

The DOM produced by the external `DOMBuilder` boundary (spec §6: a function
`string → treeRoot-or-null` supplied from outside) is modelled as a tree of
text nodes, line-break nodes and elements.  Elements carry no presentation
attributes in the model, so the attribute-driven branch of `processInlineTag`
(font-weight/font-style/text-decoration inspection) is vacuous; none of the
verified claims concerns attribute-driven styles.  `generateRandomKey()` draws
from the deterministic supply `genKey` (spec §9: injected generator). -/

/-- JS `string.trim()`: strip leading and trailing whitespace (data-level). -/
def jsTrim (s : String) : String :=
  ⟨((s.data.dropWhile Char.isWhitespace).reverse.dropWhile Char.isWhitespace).reverse⟩

/-- Left-to-right scan replacing every non-overlapping occurrence of `pat`
(non-empty) by `repl`; the fuel argument (initialised to the text length)
only makes the recursion structural, each step consumes at least one
character. -/
def replaceCharsAux (pat repl : List Char) : Nat → List Char → List Char
  | _, [] => []
  | 0, l => l
  | fuel + 1, a :: t =>
    if pat.isPrefixOf (a :: t) then
      repl ++ replaceCharsAux pat repl fuel ((a :: t).drop pat.length)
    else a :: replaceCharsAux pat repl fuel t

/-- JS `string.replace(/pat/g, repl)` for a literal pattern (data-level). -/
def strReplace (s pat repl : String) : String :=
  if pat = "" then s
  else ⟨replaceCharsAux pat.data repl.data s.data.length s.data⟩

/-- JS `string.split(c)` on a one-character separator (data-level); always
returns at least one (possibly empty) part. -/
def splitOnChar (c : Char) : List Char → List (List Char)
  | [] => [[]]
  | a :: t =>
    match splitOnChar c t with
    | [] => [[]]
    | h :: rest => if a = c then [] :: h :: rest else (a :: h) :: rest

/-- JS `string.split(c)`, as strings. -/
def strSplit (s : String) (c : Char) : List String :=
  (splitOnChar c s.data).map (fun l => ⟨l⟩)

/-- JS `array.join(c)` for an array of strings and a one-character glue. -/
def joinWithChar (c : Char) : List String → String
  | [] => ""
  | [x] => x
  | x :: y :: rest => x ++ ⟨[c]⟩ ++ joinWithChar c (y :: rest)

/-- JS `haystack.indexOf(needle) !== -1` (data-level scan). -/
def listContains (pat : List Char) : List Char → Bool
  | [] => pat.isEmpty
  | a :: t => pat.isPrefixOf (a :: t) || listContains pat t

/-- JS `string.toLowerCase()` (data-level). -/
def strToLower (s : String) : String := ⟨s.data.map Char.toLower⟩

/-- A node of the DOM handed to the import pipeline by the `DOMBuilder`. -/
inductive DomNode where
  | text (s : String)
  | br
  | element (tag : String) (children : List DomNode)
deriving Repr

/-- Embeds `node.nodeName.toLowerCase()`. -/
def domNodeName : DomNode → String
  | .text _ => "#text"
  | .br => "br"
  | .element tag _ => strToLower tag

/-- Injected key supply standing in for `generateRandomKey()`. -/
def genKey (n : Nat) : String := "key" ++ Nat.repr n

/-- The `Block` descriptor of the chunk (`type Block` in the source):
`{type, depth, key, parent}`.  `depth` is `Int`: the traversal starts at
`-1` (see `getChunkForHTML`). -/
structure BlockDescriptor where
  type : String
  depth : Int
  key : String
  parentKey : String
deriving Repr, DecidableEq

/-- Embeds `type Chunk` of the source: flat text with one inline-style set and one
optional entity per character, plus the block descriptor list. -/
structure Chunk where
  text : String
  inlines : List (List String)
  entities : List (Option String)
  blocks : List BlockDescriptor
deriving Repr, DecidableEq

/-- Embeds `EMPTY_CHUNK`. -/
def emptyChunk : Chunk := { text := "", inlines := [], entities := [], blocks := [] }

/-- The `inlineTags` table (`b/code/del/em/i/s/strike/strong/u`). -/
def inlineTags : List (String × String) :=
  [("b", "BOLD"), ("code", "CODE"), ("del", "STRIKETHROUGH"), ("em", "ITALIC"),
   ("i", "ITALIC"), ("s", "STRIKETHROUGH"), ("strike", "STRIKETHROUGH"),
   ("strong", "BOLD"), ("u", "UNDERLINE")]

/-- Embeds `OrderedSet.add`: append if not already present. -/
def styleAdd (style : List String) (s : String) : List String :=
  if s ∈ style then style else style ++ [s]

/-- Embeds `processInlineTag`: the tag-table branch.  The `HTMLElement` branch reads
`style.fontWeight/fontStyle/textDecoration`, attributes the modelled DOM nodes
do not carry, so it leaves the style set unchanged here. -/
def processInlineTag (tag : String) (currentStyle : List String) : List String :=
  match inlineTags.lookup tag with
  | some styleToCheck => styleAdd currentStyle styleToCheck
  | none => currentStyle

/-- Embeds `getBlockTypeForTag`. -/
def getBlockTypeForTag (tag : String) : String :=
  match tag with
  | "ol" => "ordered-list"
  | "ul" => "unordered-list"
  | "li" => "list-item"
  | "table" => "table"
  | "tbody" => "table-body"
  | "tr" => "table-row"
  | "td" => "table-cell"
  | _ => "paragraph"

/-- Embeds `MAX_DEPTH`. -/
def MAX_DEPTH : Int := 4

/-- Embeds `getBlockDividerChunk`: one `\r` of text paired with one fresh block
descriptor whose depth is clamped into `[0, MAX_DEPTH]`.  The generated key is
passed in (`generateRandomKey()` at the call sites). -/
def getBlockDividerChunk (block : String) (depth : Int) (parentKey : String)
    (key : String) : Chunk :=
  { text := "\r",
    inlines := [[]],
    entities := [none],
    blocks := [{ type := block,
                 depth := max 0 (min MAX_DEPTH depth),
                 key := key,
                 parentKey := parentKey }] }

/-- JS `A.text.split('\r')[0]`: the maximal `\r`-free prefix of the string. -/
def splitFirstPart (s : String) : String := ⟨s.data.takeWhile (fun c => c ≠ '\r')⟩

/-- JS `s.slice(-1)`: the last character as a string. -/
def strLast (s : String) : String := ⟨s.data.drop (s.data.length - 1)⟩

/-- Embeds `joinChunks`.  The two sequential delimiter-collapsing `if`s of the source
are kept separate; their conditions differ only in whether `B.blocks[0]` is
paragraph-typed, and their bodies are identical.  `A.blocks[last]`/`B.blocks[0]`
accesses are modelled with `getLast?`/`head?`. -/
def joinChunks (A B : Chunk) (rootNested isSibling isUnstyled : Bool) : Chunk :=
  let _ := rootNested
  let lastInA := strLast A.text
  let firstInB := strTake B.text 1
  let aText :=
    if lastInA = "\r" ∧ firstInB = "\r" ∧
        (A.blocks.getLast?).map (·.type) = some "paragraph" ∧
        ¬ (B.blocks.head?).map (·.type) = some "paragraph" then
      splitFirstPart A.text
    else A.text
  let aText :=
    if lastInA = "\r" ∧ firstInB = "\r" ∧
        (A.blocks.getLast?).map (·.type) = some "paragraph" ∧
        (B.blocks.head?).map (·.type) = some "paragraph" then
      splitFirstPart aText
    else aText
  { text :=
      if isSibling && !isUnstyled then
        joinWithChar '\r' (strSplit aText '\r' ++ strSplit B.text '\r')
      else aText ++ B.text,
    inlines := A.inlines ++ B.inlines,
    entities := A.entities ++ B.entities,
    blocks := if isUnstyled then B.blocks else A.blocks ++ B.blocks }

/-- The structural tags that emit a divider chunk before recursion (the six
consecutive `if` blocks with identical bodies for
`ul/ol`, `li`, `table`, `tbody`, `tr`, `td`; at most one matches a node). -/
def dividerTags : List String := ["ul", "ol", "li", "table", "tbody", "tr", "td"]

/-- Fallback descriptor for `chunk.blocks[0]` reads (never used on the code
paths where the source's array access succeeds). -/
def defaultDescriptor : BlockDescriptor :=
  { type := "paragraph", depth := 0, key := "", parentKey := "" }

mutual

/-- Embeds `genFragment`.  State threaded explicitly: the key-supply counter `n`.
The source's `entityMap` is returned unchanged on every path (`entityId` is
always `undefined`), and the `lastList`, `blockTags` and `blockRenderMap`
parameters are passed down but never read, so these are not threaded here.
`inBlock` is the (otherwise unused) `rootNested` argument handed to
`joinChunks` for children; recursion into a child passes `true` for it. -/
def genFragment (node : DomNode) (inlineStyle : List String) (inBlock : Bool)
    (depth : Int) (inEntity : Option String) (parentKey : String) (n : Nat) :
    Chunk × Nat :=
  match node with
  | .text s =>
    ({ text := s,
       inlines := List.replicate s.length inlineStyle,
       entities := List.replicate s.length inEntity,
       blocks := [{ type := "paragraph", depth := depth,
                    key := genKey n, parentKey := parentKey }] }, n + 1)
  | .br =>
    ({ text := "",
       inlines := [],
       entities := [],
       blocks := [{ type := "paragraph", depth := depth,
                    key := genKey n, parentKey := parentKey }] }, n + 1)
  | .element tag children =>
    let nodeName := strToLower tag
    let inlineStyle := processInlineTag nodeName inlineStyle
    let nestedBlockType := getBlockTypeForTag nodeName
    let chunk :=
      if nodeName ∈ dividerTags then
        joinChunks emptyChunk
          (getBlockDividerChunk nestedBlockType depth parentKey (genKey n))
          false false false
      else emptyChunk
    let parentKey :=
      if nodeName ∈ dividerTags then (chunk.blocks.headD defaultDescriptor).key
      else parentKey
    let n := if nodeName ∈ dividerTags then n + 1 else n
    let isUnstyled :=
      match children.head? with
      | some c => domNodeName c = "span"
      | none => false
    genFragmentChildren children inlineStyle inBlock depth inEntity parentKey
      isUnstyled false chunk n

/-- The `while (child)` loop of `genFragment`: recurse into each child in
order and join; `isSibling` becomes `true` as soon as the current child has a
next sibling and stays `true` from then on. -/
def genFragmentChildren (children : List DomNode) (inlineStyle : List String)
    (inBlock : Bool) (depth : Int) (inEntity : Option String)
    (parentKey : String) (isUnstyled isSibling : Bool) (chunk : Chunk)
    (n : Nat) : Chunk × Nat :=
  match children with
  | [] => (chunk, n)
  | child :: rest =>
    let r := genFragment child inlineStyle true depth inEntity parentKey n
    let chunk := joinChunks chunk r.1 inBlock isSibling isUnstyled
    genFragmentChildren rest inlineStyle inBlock depth inEntity parentKey
      isUnstyled (if rest.isEmpty then isSibling else true) chunk r.2

end

/-- Embeds `DraftBlockRenderConfig` (src/model/immutable/DraftBlockRenderConfig.js):
only the `element` tag name and the `aliasedElements` list are read by
the import pipeline. -/
structure DraftBlockRenderConfig where
  element : String
  aliasedElements : List String := []
deriving Repr, DecidableEq

/-- A block render map: block type to render config, in order. -/
abbrev BlockRenderMap := List (String × DraftBlockRenderConfig)

/-- Embeds `getBlockMapSupportedTags`: every aliased element plus every `element` tag
of the configs, empty names filtered out.  The source accumulates into an
`Immutable.Set` and sorts; deduplication and order are irrelevant to the only
consumer (`containsSemanticBlockMarkup`'s `some`), so the model keeps first
occurrences in traversal order. -/
def getBlockMapSupportedTags (blockRenderMap : BlockRenderMap) : List String :=
  ((blockRenderMap.foldl
      (fun tags p => tags ++ p.2.aliasedElements ++ [p.2.element]) []).filter
    (fun tag => tag ≠ "")).dedup

/-- JS `html.indexOf('<' + tag) !== -1`. -/
def containsSub (s pat : String) : Bool := listContains pat.data s.data

/-- Embeds `containsSemanticBlockMarkup`. -/
def containsSemanticBlockMarkup (html : String) (blockTags : List String) : Bool :=
  blockTags.any (fun tag => containsSub html ("<" ++ tag))

/-- The `html.trim().replace(...)` preamble of `getChunkForHTML`.  The regexes
`&#13;?` and `&#8203;?` (optional trailing semicolon) are modelled as replacing
the semicolon form first and the bare form second. -/
def cleanHtml (html : String) : String :=
  strReplace (strReplace (strReplace (strReplace (strReplace
    (strReplace (jsTrim html) "\r" "") "&nbsp;" " ") "&#13;" "") "&#13" "")
    "&#8203;" "") "&#8203" ""

/-- Embeds `getChunkForHTML`.  The `DOMBuilder` is the external DOM-parsing boundary
(spec §6); `n` is the key-supply counter.  `workingBlocks` is computed as in
the source but `genFragment` never reads its `blockTags` argument, so it does
not influence the result. -/
def getChunkForHTML (html : String) (DOMBuilder : String → Option DomNode)
    (blockRenderMap : BlockRenderMap) (n : Nat) : Option (Chunk × Nat) :=
  let html := cleanHtml html
  let supportedBlockTags := getBlockMapSupportedTags blockRenderMap
  match DOMBuilder html with
  | none => none
  | some safeBody =>
    let _workingBlocks :=
      if containsSemanticBlockMarkup html supportedBlockTags then supportedBlockTags
      else ["div"]
    let r := genFragment safeBody [] false (-1) none "" n
    let chunk := r.1
    let chunk :=
      if chunk.blocks.isEmpty then
        { chunk with blocks := [{ type := "paragraph", depth := 0,
                                  key := "", parentKey := "" }] }
      else chunk
    some (chunk, r.2)

/-- Modelled from the spec (§4.4): `sanitizeDraftText` is not among the
sources; the final block texts are the `\r`-delimited segments of the chunk
text, so sanitizing strips any remaining block-delimiter character. -/
def sanitizeDraftText (s : String) : String := strReplace s "\r" ""

/-- Embeds `CharacterMetadata.create({style, entity})` as used in
`convertChunkToContentBlocks`: the entity slot is set only when the sliced
entity value is truthy (present and not the empty string). -/
def mkCharacterMetadata (style : List String) (entity : Option (Option String)) :
    CharacterMetadata :=
  { style := style,
    entity :=
      match entity with
      | some (some e) => if e = "" then none else some e
      | some none => none
      | none => none }

/-- One step of the `reduce` in `convertChunkToContentBlocks`; the
accumulator carries the produced blocks, the running character offset `start`
and the key-supply counter.  The source's `prevSibling`/`nextSibling`
computations feed record fields that `ContentBlock`'s record declares no keys
for (Immutable `Record` silently drops unknown config keys), so they have no
observable effect and are omitted. -/
def convertChunkStep (rawBlocks : List BlockDescriptor)
    (rawInlines : List (List String)) (rawEntities : List (Option String))
    (acc : List ContentBlock × Nat × Nat) (p : Nat × String) :
    List ContentBlock × Nat × Nat :=
  let contentBlocks := acc.1
  let start := acc.2.1
  let kn := acc.2.2
  let index := p.1
  let textBlock := sanitizeDraftText p.2
  let e := start + (if textBlock.length ≠ 0 then textBlock.length else 1)
  let inlines := (rawInlines.drop start).take (e - start)
  let entities := (rawEntities.drop start).take (e - start)
  let characterList := inlines.enum.map
    (fun q => mkCharacterMetadata q.2 (entities.get? q.1))
  match rawBlocks.get? index with
  | some block =>
    let key := if block.key = "" then genKey kn else block.key
    let kn := if block.key = "" then kn + 1 else kn
    (contentBlocks ++
      [{ key := key, parentKey := block.parentKey, type := block.type,
         depth := block.depth, text := textBlock,
         characterList := characterList, data := [] }], e, kn)
  | none =>
    (contentBlocks ++
      [{ key := genKey kn, parentKey := "", type := "paragraph", depth := 0,
         text := "", characterList := [], data := [] }], e, kn + 1)

/-- Embeds `convertChunkToContentBlocks`: `null` when the chunk text is empty (the
`!chunk.text` guard), else one `ContentBlock` per `\r`-delimited segment. -/
def convertChunkToContentBlocks (chunk : Chunk) (n : Nat) :
    Option (List ContentBlock) :=
  if chunk.text = "" then none
  else
    let newArr := strSplit chunk.text '\r'
    some ((newArr.enum.foldl
      (convertChunkStep chunk.blocks chunk.inlines chunk.entities)
      ([], 0, n)).1)

/-- The result record of `convertFromHTMLtoContentBlocks`; the `entityMap`
component passes through the pipeline unchanged and is omitted. -/
structure HTMLConversionResult where
  contentBlocks : Option (List ContentBlock)
deriving Repr, DecidableEq

/-- Embeds `convertFromHTMLtoContentBlocks`. -/
def convertFromHTMLtoContentBlocks (html : String)
    (DOMBuilder : String → Option DomNode) (blockRenderMap : BlockRenderMap)
    (n : Nat) : Option HTMLConversionResult :=
  match getChunkForHTML html DOMBuilder blockRenderMap n with
  | none => none
  | some (chunk, n') => some { contentBlocks := convertChunkToContentBlocks chunk n' }

/-! ## Helper lemmas -/

/-- Concatenation of the texts of a list of blocks, in map order. -/
def textsJoin (l : List ContentBlock) : String :=
  l.foldl (fun acc b => acc ++ b.text) ""

/-- Concatenation of the character lists of a list of blocks, in map order. -/
def charsJoin (l : List ContentBlock) : List CharacterMetadata :=
  l.foldl (fun acc b => acc ++ b.characterList) []

theorem str_append_data (a b : String) : a ++ b = ⟨a.data ++ b.data⟩ := by
  cases a; cases b; rfl

theorem str_append_empty (s : String) : s ++ "" = s := by
  cases s with
  | mk l => rw [str_append_data]; simp

theorem str_empty_append (s : String) : "" ++ s = s := by
  cases s with
  | mk l => rw [str_append_data]; simp

theorem strTake_append_strDrop (s : String) (n : Nat) :
    strTake s n ++ strDrop s n = s := by
  cases s with
  | mk l => rw [str_append_data]; simp [strTake, strDrop]

theorem strTake_data (s : String) (n : Nat) : (strTake s n).data = s.data.take n := rfl

theorem strDrop_data (s : String) (n : Nat) : (strDrop s n).data = s.data.drop n := rfl

theorem strTake_length (s : String) (n : Nat) :
    (strTake s n).length = min n s.length := by
  change (s.data.take n).length = min n s.data.length
  exact List.length_take n s.data

theorem strDrop_length (s : String) (n : Nat) :
    (strDrop s n).length = s.length - n := by
  change (s.data.drop n).length = s.data.length - n
  exact List.length_drop n s.data

theorem strTake_strDrop_length (s : String) (n : Nat) (h : n ≤ s.length) :
    (strTake s n).length + (strDrop s n).length = s.length := by
  rw [strTake_length, strDrop_length]
  omega

theorem getBlock_mem {m : List ContentBlock} {k : String} {b : ContentBlock}
    (h : getBlock m k = some b) : b ∈ m :=
  List.mem_of_find?_eq_some h

theorem getBlock_key {m : List ContentBlock} {k : String} {b : ContentBlock}
    (h : getBlock m k = some b) : b.key = k := by
  have := List.find?_some h
  simpa using this

/-- Decomposition of a list at the first occurrence of a member, matching the
`takeUntil`/`skipUntil().rest()` pair used by the split transaction. -/
theorem takeWhile_dropWhile_split {α : Type} [DecidableEq α] {b : α} {l : List α}
    (hb : b ∈ l) :
    l = l.takeWhile (fun v => v ≠ b) ++ b :: (l.dropWhile (fun v => v ≠ b)).tail := by
  induction l with
  | nil => cases hb
  | cons a t ih =>
    by_cases hab : a = b
    · subst hab
      simp [List.takeWhile_cons, List.dropWhile_cons]
    · have hbt : b ∈ t := by
        cases hb with
        | head => exact absurd rfl hab
        | tail _ h => exact h
      simp only [List.takeWhile_cons, List.dropWhile_cons]
      have hd : (decide ¬(a = b)) = true := by simp [hab]
      simp only [ne_eq, hd, if_true]
      simpa using ih hbt

theorem blockKeys_append (l₁ l₂ : List ContentBlock) :
    blockKeys (l₁ ++ l₂) = blockKeys l₁ ++ blockKeys l₂ := by
  simp [blockKeys]

theorem omSet_not_mem {m : List ContentBlock} {b : ContentBlock}
    (h : b.key ∉ blockKeys m) : omSet m b = m ++ [b] := by
  rw [omSet, if_neg]
  simp only [List.any_eq_true, decide_eq_true_eq, not_exists, not_and]
  intro x hx hk
  exact h (hk ▸ (List.mem_map_of_mem (·.key) hx))

theorem foldl_omSet_append {l acc : List ContentBlock}
    (h : (blockKeys (acc ++ l)).Nodup) : l.foldl omSet acc = acc ++ l := by
  induction l generalizing acc with
  | nil => simp
  | cons b t ih =>
    have hkeys : blockKeys (acc ++ b :: t) =
        blockKeys acc ++ b.key :: blockKeys t := by
      simp [blockKeys]
    rw [hkeys] at h
    have hb : b.key ∉ blockKeys acc := by
      rcases List.nodup_append.mp h with ⟨-, -, hdisj⟩
      intro hmem
      exact hdisj hmem (List.mem_cons_self _ _)
    rw [List.foldl_cons, omSet_not_mem hb]
    have h' : (blockKeys ((acc ++ [b]) ++ t)).Nodup := by
      have : (acc ++ [b]) ++ t = acc ++ b :: t := by simp
      rw [this, hkeys]
      exact h
    rw [ih h']
    simp

theorem toOrderedMap_eq_self {l : List ContentBlock}
    (h : (blockKeys l).Nodup) : toOrderedMap l = l := by
  unfold toOrderedMap
  rw [foldl_omSet_append]
  · simp
  · simpa using h

theorem blockAboveOf_text (b : ContentBlock) (o : Nat) (kA : String) :
    (blockAboveOf b o kA).text = strTake b.text o := rfl

theorem blockAboveOf_key (b : ContentBlock) (o : Nat) (kA : String) :
    (blockAboveOf b o kA).key = kA := rfl

theorem blockBelowOf_text (b : ContentBlock) (o : Nat) (kA kB : String) :
    (blockBelowOf b o kA kB).text = strDrop b.text o := rfl

theorem blockBelowOf_key (b : ContentBlock) (o : Nat) (kA kB : String) :
    (blockBelowOf b o kA kB).key = kB := rfl

theorem newEmptyBlockOf_key (b : ContentBlock) : (newEmptyBlockOf b).key = b.key := rfl

/-- Replacing the first occurrence of `b` by a segment `mid` of blocks whose
keys are either `b`'s key or fresh preserves key-nodup-ness. -/
theorem nodup_keys_replace {xs zs : List ContentBlock} {b : ContentBlock}
    {mid : List ContentBlock}
    (H : (blockKeys (xs ++ b :: zs)).Nodup)
    (hmid : (blockKeys mid).Nodup)
    (hfresh : ∀ x ∈ mid, x.key = b.key ∨ x.key ∉ blockKeys (xs ++ b :: zs)) :
    (blockKeys (xs ++ mid ++ zs)).Nodup := by
  have Hk : (blockKeys xs ++ b.key :: blockKeys zs).Nodup := by
    have : blockKeys (xs ++ b :: zs) = blockKeys xs ++ b.key :: blockKeys zs := by
      simp [blockKeys]
    rw [← this]; exact H
  obtain ⟨hnxs, hncons, hdisj⟩ := List.nodup_append.mp Hk
  obtain ⟨hbkzs, hnzs⟩ := List.nodup_cons.mp hncons
  have hbkxs : b.key ∉ blockKeys xs := fun hmem => hdisj hmem (List.mem_cons_self _ _)
  have hmidkey : ∀ y ∈ blockKeys mid, y = b.key ∨ y ∉ blockKeys (xs ++ b :: zs) := by
    intro y hy
    obtain ⟨x, hx, rfl⟩ := List.mem_map.mp hy
    exact hfresh x hx
  have hmemtot : ∀ y, y ∈ blockKeys xs ∨ y ∈ blockKeys zs →
      y ∈ blockKeys (xs ++ b :: zs) := by
    intro y hy
    rw [blockKeys_append]
    rcases hy with h | h
    · exact List.mem_append_left _ h
    · exact List.mem_append_right _ (by
        show y ∈ blockKeys (b :: zs)
        simp [blockKeys]
        right
        simpa [blockKeys] using h)
  have goalEq : blockKeys (xs ++ mid ++ zs) =
      blockKeys xs ++ (blockKeys mid ++ blockKeys zs) := by
    simp [blockKeys]
  rw [goalEq]
  refine List.nodup_append.mpr ⟨hnxs, List.nodup_append.mpr ⟨hmid, hnzs, ?_⟩, ?_⟩
  · intro y hy hz
    rcases hmidkey y hy with rfl | hfr
    · exact hbkzs hz
    · exact hfr (hmemtot y (Or.inr hz))
  · intro y hy hmem
    rcases List.mem_append.mp hmem with hm | hz
    · rcases hmidkey y hm with rfl | hfr
      · exact hbkxs hy
      · exact hfr (hmemtot y (Or.inl hy))
    · exact hdisj hy (List.mem_cons_of_mem _ hz)

/-- Specialisation of `nodup_keys_replace` to the `takeUntil`/`skipUntil`
decomposition used by the split transaction. -/
theorem nodup_keys_split_replace {m : List ContentBlock} {b : ContentBlock}
    (hmem : b ∈ m) (hnd : (blockKeys m).Nodup)
    (mid : List ContentBlock) (hmid : (blockKeys mid).Nodup)
    (hfresh : ∀ x ∈ mid, x.key = b.key ∨ x.key ∉ blockKeys m) :
    (blockKeys (blocksBeforeOf m b ++ mid ++ blocksAfterOf m b)).Nodup := by
  have hdecomp : m = blocksBeforeOf m b ++ b :: blocksAfterOf m b :=
    takeWhile_dropWhile_split hmem
  exact nodup_keys_replace (hdecomp ▸ hnd) hmid (fun x hx => hdecomp ▸ hfresh x hx)

/-- Evaluation of the split transaction in the head-empty sub-case
(`blockAbove.text.length === 0`): the original block is replaced in place by
`[blockAbove, blockBelow]` and the selection collapses to `blockAbove`. -/
theorem splitNested_ok_headEmpty (cs : ContentState) (sel : SelectionState)
    (kA kB : String) (b : ContentBlock)
    (hcol : sel.isCollapsed = true)
    (hget : getBlock cs.blockMap sel.anchorKey = some b)
    (hnd : (blockKeys cs.blockMap).Nodup)
    (hA : kA ∉ blockKeys cs.blockMap) (hB : kB ∉ blockKeys cs.blockMap)
    (hAB : kA ≠ kB)
    (h0 : (strTake b.text sel.anchorOffset).length = 0) :
    splitNestedBlockInContentState cs sel kA kB = .ok
      { cs with
          blockMap := blocksBeforeOf cs.blockMap b ++
            [blockAboveOf b sel.anchorOffset kA,
             blockBelowOf b sel.anchorOffset kA kB] ++ blocksAfterOf cs.blockMap b,
          selectionBefore := sel,
          selectionAfter := collapsedAtStart sel kA } := by
  have hndnew := nodup_keys_split_replace (getBlock_mem hget) hnd
    [blockAboveOf b sel.anchorOffset kA, blockBelowOf b sel.anchorOffset kA kB]
    (by simp [blockKeys, blockAboveOf_key, blockBelowOf_key, hAB])
    (by
      intro x hx
      simp only [List.mem_cons, List.not_mem_nil, or_false] at hx
      rcases hx with rfl | rfl
      · exact Or.inr (by rw [blockAboveOf_key]; exact hA)
      · exact Or.inr (by rw [blockBelowOf_key]; exact hB))
  unfold splitNestedBlockInContentState
  rw [hcol]
  simp only [if_true]
  rw [hget]
  simp only [blockAboveOf_text, h0, if_pos rfl]
  rw [toOrderedMap_eq_self hndnew]
  simp [blockAboveOf_key]

/-- Evaluation of the split transaction in the tail-empty sub-case
(`blockAbove.text.length !== 0 && blockBelow.text.length === 0`): the original
block is replaced by `[blockAbove, newEmptyBlock]` — the empty block keeping
the original key — and the selection collapses to `newEmptyBlock`. -/
theorem splitNested_ok_tailEmpty (cs : ContentState) (sel : SelectionState)
    (kA kB : String) (b : ContentBlock)
    (hcol : sel.isCollapsed = true)
    (hget : getBlock cs.blockMap sel.anchorKey = some b)
    (hnd : (blockKeys cs.blockMap).Nodup)
    (hA : kA ∉ blockKeys cs.blockMap) (hB : kB ∉ blockKeys cs.blockMap)
    (hAB : kA ≠ kB)
    (h1 : (strTake b.text sel.anchorOffset).length ≠ 0)
    (h2 : (strDrop b.text sel.anchorOffset).length = 0) :
    splitNestedBlockInContentState cs sel kA kB = .ok
      { cs with
          blockMap := blocksBeforeOf cs.blockMap b ++
            [blockAboveOf b sel.anchorOffset kA, newEmptyBlockOf b] ++
            blocksAfterOf cs.blockMap b,
          selectionBefore := sel,
          selectionAfter := collapsedAtStart sel b.key } := by
  have hbkey : b.key ∈ blockKeys cs.blockMap :=
    List.mem_map_of_mem (·.key) (getBlock_mem hget)
  have hndnew := nodup_keys_split_replace (getBlock_mem hget) hnd
    [blockAboveOf b sel.anchorOffset kA, newEmptyBlockOf b]
    (by
      simp [blockKeys, blockAboveOf_key, newEmptyBlockOf_key]
      intro hcontra
      exact hA (hcontra ▸ hbkey))
    (by
      intro x hx
      simp only [List.mem_cons, List.not_mem_nil, or_false] at hx
      rcases hx with rfl | rfl
      · exact Or.inr (by rw [blockAboveOf_key]; exact hA)
      · exact Or.inl (newEmptyBlockOf_key b))
  unfold splitNestedBlockInContentState
  rw [hcol]
  simp only [if_true]
  rw [hget]
  simp only [blockAboveOf_text, blockBelowOf_text]
  rw [if_neg h1, if_pos ⟨h1, h2⟩]
  rw [toOrderedMap_eq_self hndnew]
  simp [newEmptyBlockOf_key]

/-- Evaluation of the split transaction when head and tail are both non-empty:
the original block is replaced by `[blockAbove, newEmptyBlock, blockBelow]` —
the middle empty block keeping the original key — and the selection collapses
to `newEmptyBlock`. -/
theorem splitNested_ok_bothNonempty (cs : ContentState) (sel : SelectionState)
    (kA kB : String) (b : ContentBlock)
    (hcol : sel.isCollapsed = true)
    (hget : getBlock cs.blockMap sel.anchorKey = some b)
    (hnd : (blockKeys cs.blockMap).Nodup)
    (hA : kA ∉ blockKeys cs.blockMap) (hB : kB ∉ blockKeys cs.blockMap)
    (hAB : kA ≠ kB)
    (h1 : (strTake b.text sel.anchorOffset).length ≠ 0)
    (h2 : (strDrop b.text sel.anchorOffset).length ≠ 0) :
    splitNestedBlockInContentState cs sel kA kB = .ok
      { cs with
          blockMap := blocksBeforeOf cs.blockMap b ++
            [blockAboveOf b sel.anchorOffset kA, newEmptyBlockOf b,
             blockBelowOf b sel.anchorOffset kA kB] ++
            blocksAfterOf cs.blockMap b,
          selectionBefore := sel,
          selectionAfter := collapsedAtStart sel b.key } := by
  have hbkey : b.key ∈ blockKeys cs.blockMap :=
    List.mem_map_of_mem (·.key) (getBlock_mem hget)
  have hndnew := nodup_keys_split_replace (getBlock_mem hget) hnd
    [blockAboveOf b sel.anchorOffset kA, newEmptyBlockOf b,
     blockBelowOf b sel.anchorOffset kA kB]
    (by
      simp [blockKeys, blockAboveOf_key, newEmptyBlockOf_key, blockBelowOf_key, hAB]
      constructor
      · intro hcontra
        exact hA (hcontra ▸ hbkey)
      · intro hcontra
        exact hB (hcontra ▸ hbkey))
    (by
      intro x hx
      simp only [List.mem_cons, List.not_mem_nil, or_false] at hx
      rcases hx with rfl | rfl | rfl
      · exact Or.inr (by rw [blockAboveOf_key]; exact hA)
      · exact Or.inl (newEmptyBlockOf_key b)
      · exact Or.inr (by rw [blockBelowOf_key]; exact hB))
  unfold splitNestedBlockInContentState
  rw [hcol]
  simp only [if_true]
  rw [hget]
  simp only [blockAboveOf_text, blockBelowOf_text]
  rw [if_neg h1, if_neg (fun hc => h2 hc.2)]
  rw [toOrderedMap_eq_self hndnew]
  simp [newEmptyBlockOf_key]

/-! ## Concrete fixtures used by witnesses and counterexamples -/

/-- A plain character with no style and no entity. -/
def plainChar : CharacterMetadata := { style := [], entity := none }

/-- A one-block document: block `"orig"` with text `"ab"`. -/
def origBlock : ContentBlock :=
  { key := "orig", type := "unstyled", text := "ab",
    characterList := [plainChar, plainChar], parentKey := "" }

/-- Content state holding just `origBlock`. -/
def origContent : ContentState := { blockMap := [origBlock] }

/-- A collapsed selection in block `"orig"` at offset `o`. -/
def selAt (o : Nat) : SelectionState :=
  { anchorKey := "orig", anchorOffset := o, focusKey := "orig", focusOffset := o }

/-- Projection of a transaction result to its content state, if any. -/
def okContentState : Except String ContentState → Option ContentState
  | .ok c => some c
  | .error _ => none

/-! ## Claim theorems -/

/-- C3: called with a non-collapsed selection, `splitNestedBlockInContentState`
fails with the invariant error "Selection range must be collapsed." and
`insertFragmentIntoContentState` fails with its own invariant error, in both
cases before any new tree is constructed (the error is produced instead of an
`ok` state, so the input `ContentState` is untouched — all-or-nothing), and the
selection is never silently coerced to collapsed. -/
theorem C3_noncollapsed_selection_fails (cs : ContentState) (sel : SelectionState)
    (kA kB : String) (fragment : List ContentBlock) (genKeys : Nat → String)
    (h : sel.isCollapsed = false) :
    splitNestedBlockInContentState cs sel kA kB =
      .error "Selection range must be collapsed." ∧
    insertFragmentIntoContentState cs sel fragment genKeys =
      .error "`insertFragment` should only be called with a collapsed selection state." := by
  constructor
  · unfold splitNestedBlockInContentState
    rw [h]
    simp
  · unfold insertFragmentIntoContentState
    rw [h]
    simp

/-- Witness for C3 at a concrete non-collapsed selection. -/
theorem C3_witness :
    ({ anchorKey := "orig", anchorOffset := 0, focusKey := "orig",
       focusOffset := 1 } : SelectionState).isCollapsed = false ∧
    splitNestedBlockInContentState origContent
      { anchorKey := "orig", anchorOffset := 0, focusKey := "orig", focusOffset := 1 }
      "kA" "kB" = .error "Selection range must be collapsed." ∧
    insertFragmentIntoContentState origContent
      { anchorKey := "orig", anchorOffset := 0, focusKey := "orig", focusOffset := 1 }
      [] genKey =
      .error "`insertFragment` should only be called with a collapsed selection state." :=
  ⟨by decide,
   (C3_noncollapsed_selection_fails origContent _ "kA" "kB" [] genKey (by decide)).1,
   (C3_noncollapsed_selection_fails origContent _ "kA" "kB" [] genKey (by decide)).2⟩

/-- C2 counterexample: splitting block `"orig"` (text `"ab"`) at offset `0`
(head empty, tail non-empty) puts the resulting selection at offset `0` of the
new **empty** block above (`"kA"`, text `""`), not at the block carrying the
tail text (`"kB"`, text `"ab"`) as the claim states. -/
theorem C2_counterexample :
    (okContentState (splitNestedBlockInContentState origContent (selAt 0) "kA" "kB")).map
        (fun c => (c.selectionAfter.anchorKey,
                   c.blockMap.map (fun bl => (bl.key, bl.text)))) =
      some ("kA", [("kA", ""), ("kB", "ab")]) ∧
    ("kA" : String) ≠ "kB" := by decide

/-- C2 (amended): the `selectionAfter` produced by a successful
`splitNestedBlockInContentState` is always collapsed (anchor = focus, offsets
`0`, `isBackward` false); it sits on the new block above (`keyAbove`) when the
head is empty, and on `newEmptyBlock` — which keeps the original block's key —
otherwise (i.e. in both the tail-empty and the three-block sub-cases).  In the
head-empty sub-case the selection is therefore on the new empty block above
the tail block, not on the block carrying the tail text. -/
theorem C2_selection_after_split (cs : ContentState) (sel : SelectionState)
    (kA kB : String) (b : ContentBlock)
    (hcol : sel.isCollapsed = true)
    (hget : getBlock cs.blockMap sel.anchorKey = some b) :
    ∃ cs', splitNestedBlockInContentState cs sel kA kB = .ok cs' ∧
      cs'.selectionAfter = collapsedAtStart sel
        (if (strTake b.text sel.anchorOffset).length = 0 then kA else b.key) ∧
      cs'.selectionAfter.anchorKey = cs'.selectionAfter.focusKey ∧
      cs'.selectionAfter.anchorOffset = 0 ∧
      cs'.selectionAfter.focusOffset = 0 ∧
      cs'.selectionAfter.isBackward = false := by
  unfold splitNestedBlockInContentState
  rw [hcol]
  simp only [if_true]
  rw [hget]
  simp only [blockAboveOf_text, blockBelowOf_text]
  by_cases h1 : (strTake b.text sel.anchorOffset).length = 0
  · rw [if_pos h1]
    exact ⟨_, rfl, by simp [collapsedAtStart, h1, blockAboveOf_key]⟩
  · by_cases h2 : (strDrop b.text sel.anchorOffset).length = 0
    · rw [if_neg h1, if_pos ⟨h1, h2⟩]
      exact ⟨_, rfl, by simp [collapsedAtStart, h1, newEmptyBlockOf_key]⟩
    · rw [if_neg h1, if_neg (fun hc => h2 hc.2)]
      exact ⟨_, rfl, by simp [collapsedAtStart, h1, newEmptyBlockOf_key]⟩

/-- Witness for C2 (amended) at the concrete head-empty input. -/
theorem C2_witness :
    (selAt 0).isCollapsed = true ∧
    getBlock origContent.blockMap (selAt 0).anchorKey = some origBlock ∧
    (∃ cs', splitNestedBlockInContentState origContent (selAt 0) "kA" "kB" = .ok cs' ∧
      cs'.selectionAfter = collapsedAtStart (selAt 0)
        (if (strTake origBlock.text (selAt 0).anchorOffset).length = 0 then "kA"
         else origBlock.key) ∧
      cs'.selectionAfter.anchorKey = cs'.selectionAfter.focusKey ∧
      cs'.selectionAfter.anchorOffset = 0 ∧
      cs'.selectionAfter.focusOffset = 0 ∧
      cs'.selectionAfter.isBackward = false) :=
  ⟨by decide, by decide,
   C2_selection_after_split origContent (selAt 0) "kA" "kB" origBlock
     (by decide) (by decide)⟩

theorem textsJoin_pair (x y : ContentBlock) :
    textsJoin [x, y] = x.text ++ y.text := by
  simp only [textsJoin, List.foldl_cons, List.foldl_nil]
  rw [str_empty_append]

theorem textsJoin_triple (x y z : ContentBlock) :
    textsJoin [x, y, z] = x.text ++ y.text ++ z.text := by
  simp only [textsJoin, List.foldl_cons, List.foldl_nil]
  rw [str_empty_append]

theorem charsJoin_pair (x y : ContentBlock) :
    charsJoin [x, y] = x.characterList ++ y.characterList := by
  simp [charsJoin]

theorem charsJoin_triple (x y z : ContentBlock) :
    charsJoin [x, y, z] = x.characterList ++ y.characterList ++ z.characterList := by
  simp [charsJoin]

/-- C5 counterexample: splitting block `"orig"` (text `"ab"`) at offset `1`
(head and tail both non-empty) produces the three blocks with keys
`["kA", "orig", "kB"]`: the middle empty block **reuses** the original block's
key `"orig"` instead of carrying a fresh key. -/
theorem C5_counterexample :
    (okContentState (splitNestedBlockInContentState origContent (selAt 1) "kA" "kB")).map
        (fun c => c.blockMap.map (·.key)) = some ["kA", "orig", "kB"] ∧
    origBlock.key = "orig" ∧
    origContent.blockMap.map (·.key) = ["orig"] := by decide

/-- C5 (amended): in the three-block sub-case (head and tail both non-empty)
the split inserts `[blockAbove, newEmptyBlock, blockBelow]` in that order;
`blockAbove` and `blockBelow` carry the two freshly generated keys (distinct
from every key of the map, in particular from the original block's key), while
the middle empty block **retains the original block's key**. -/
theorem C5_three_block_keys (cs : ContentState) (sel : SelectionState)
    (kA kB : String) (b : ContentBlock)
    (hcol : sel.isCollapsed = true)
    (hget : getBlock cs.blockMap sel.anchorKey = some b)
    (hnd : (blockKeys cs.blockMap).Nodup)
    (hA : kA ∉ blockKeys cs.blockMap) (hB : kB ∉ blockKeys cs.blockMap)
    (hAB : kA ≠ kB)
    (h1 : (strTake b.text sel.anchorOffset).length ≠ 0)
    (h2 : (strDrop b.text sel.anchorOffset).length ≠ 0) :
    ∃ cs', splitNestedBlockInContentState cs sel kA kB = .ok cs' ∧
      cs'.blockMap = blocksBeforeOf cs.blockMap b ++
        [blockAboveOf b sel.anchorOffset kA, newEmptyBlockOf b,
         blockBelowOf b sel.anchorOffset kA kB] ++ blocksAfterOf cs.blockMap b ∧
      (blockAboveOf b sel.anchorOffset kA).key = kA ∧
      (blockBelowOf b sel.anchorOffset kA kB).key = kB ∧
      (newEmptyBlockOf b).key = b.key ∧
      kA ≠ b.key ∧ kB ≠ b.key ∧ kA ≠ kB := by
  have hbkey : b.key ∈ blockKeys cs.blockMap :=
    List.mem_map_of_mem (·.key) (getBlock_mem hget)
  refine ⟨_, splitNested_ok_bothNonempty cs sel kA kB b hcol hget hnd hA hB hAB h1 h2,
    rfl, rfl, rfl, rfl, ?_, ?_, hAB⟩
  · intro hcontra
    exact hA (hcontra ▸ hbkey)
  · intro hcontra
    exact hB (hcontra ▸ hbkey)

/-- Witness for C5 (amended) at the concrete three-block input. -/
theorem C5_witness :
    (selAt 1).isCollapsed = true ∧
    getBlock origContent.blockMap (selAt 1).anchorKey = some origBlock ∧
    (∃ cs', splitNestedBlockInContentState origContent (selAt 1) "kA" "kB" = .ok cs' ∧
      cs'.blockMap = blocksBeforeOf origContent.blockMap origBlock ++
        [blockAboveOf origBlock (selAt 1).anchorOffset "kA", newEmptyBlockOf origBlock,
         blockBelowOf origBlock (selAt 1).anchorOffset "kA" "kB"] ++
        blocksAfterOf origContent.blockMap origBlock ∧
      (blockAboveOf origBlock (selAt 1).anchorOffset "kA").key = "kA" ∧
      (blockBelowOf origBlock (selAt 1).anchorOffset "kA" "kB").key = "kB" ∧
      (newEmptyBlockOf origBlock).key = origBlock.key ∧
      "kA" ≠ origBlock.key ∧ "kB" ≠ origBlock.key ∧ ("kA" : String) ≠ "kB") :=
  ⟨by decide, by decide,
   C5_three_block_keys origContent (selAt 1) "kA" "kB" origBlock
     (by decide) (by decide) (by decide) (by decide) (by decide) (by decide)
     (by decide) (by decide)⟩

/-- C1: character conservation of the split.  For a collapsed selection at
offset `o ≤ N` in block `b` (with the documented `characterList.length =
text.length` invariant, unique keys, and fresh generated keys), the blocks the
split inserts in place of `b`, read in map order, concatenate — texts and
characterLists alike — to exactly the original text and characterList, in all
three sub-cases, and `len(head) + len(tail) = N`. -/
theorem C1_split_character_conservation (cs : ContentState) (sel : SelectionState)
    (kA kB : String) (b : ContentBlock)
    (hcol : sel.isCollapsed = true)
    (hget : getBlock cs.blockMap sel.anchorKey = some b)
    (hnd : (blockKeys cs.blockMap).Nodup)
    (hA : kA ∉ blockKeys cs.blockMap) (hB : kB ∉ blockKeys cs.blockMap)
    (hAB : kA ≠ kB)
    (hlen : b.characterList.length = b.text.length)
    (hoff : sel.anchorOffset ≤ b.text.length) :
    ∃ cs' mid,
      splitNestedBlockInContentState cs sel kA kB = .ok cs' ∧
      cs'.blockMap = blocksBeforeOf cs.blockMap b ++ mid ++ blocksAfterOf cs.blockMap b ∧
      textsJoin mid = b.text ∧
      charsJoin mid = b.characterList ∧
      (strTake b.text sel.anchorOffset).length +
        (strDrop b.text sel.anchorOffset).length = b.text.length := by
  have hsum := strTake_strDrop_length b.text sel.anchorOffset hoff
  by_cases h1 : (strTake b.text sel.anchorOffset).length = 0
  · refine ⟨_, [blockAboveOf b sel.anchorOffset kA,
                blockBelowOf b sel.anchorOffset kA kB],
      splitNested_ok_headEmpty cs sel kA kB b hcol hget hnd hA hB hAB h1, rfl,
      ?_, ?_, hsum⟩
    · rw [textsJoin_pair, blockAboveOf_text, blockBelowOf_text,
          strTake_append_strDrop]
    · rw [charsJoin_pair]
      show b.characterList.take sel.anchorOffset ++
        b.characterList.drop sel.anchorOffset = b.characterList
      exact List.take_append_drop _ _
  · by_cases h2 : (strDrop b.text sel.anchorOffset).length = 0
    · refine ⟨_, [blockAboveOf b sel.anchorOffset kA, newEmptyBlockOf b],
        splitNested_ok_tailEmpty cs sel kA kB b hcol hget hnd hA hB hAB h1 h2, rfl,
        ?_, ?_, hsum⟩
      · rw [textsJoin_pair, blockAboveOf_text]
        show strTake b.text sel.anchorOffset ++ "" = b.text
        rw [str_append_empty]
        have hge : b.text.length ≤ sel.anchorOffset := by
          rw [strDrop_length] at h2
          omega
        cases hb : b.text with
        | mk l =>
          simp only [strTake]
          congr 1
          apply List.take_of_length_le
          have : b.text.length = l.length := by rw [hb]; rfl
          omega
      · rw [charsJoin_pair]
        show b.characterList.take sel.anchorOffset ++ [] = b.characterList
        rw [List.append_nil]
        apply List.take_of_length_le
        rw [strDrop_length] at h2
        omega
    · refine ⟨_, [blockAboveOf b sel.anchorOffset kA, newEmptyBlockOf b,
                  blockBelowOf b sel.anchorOffset kA kB],
        splitNested_ok_bothNonempty cs sel kA kB b hcol hget hnd hA hB hAB h1 h2, rfl,
        ?_, ?_, hsum⟩
      · rw [textsJoin_triple, blockAboveOf_text, blockBelowOf_text]
        show strTake b.text sel.anchorOffset ++ "" ++
          strDrop b.text sel.anchorOffset = b.text
        rw [str_append_empty, strTake_append_strDrop]
      · rw [charsJoin_triple]
        show b.characterList.take sel.anchorOffset ++ [] ++
          b.characterList.drop sel.anchorOffset = b.characterList
        rw [List.append_nil]
        exact List.take_append_drop _ _

/-- Witness for C1 at the concrete three-block input (offset 1 of "ab"). -/
theorem C1_witness :
    (selAt 1).isCollapsed = true ∧
    getBlock origContent.blockMap (selAt 1).anchorKey = some origBlock ∧
    origBlock.characterList.length = origBlock.text.length ∧
    (selAt 1).anchorOffset ≤ origBlock.text.length ∧
    (∃ cs' mid,
      splitNestedBlockInContentState origContent (selAt 1) "kA" "kB" = .ok cs' ∧
      cs'.blockMap = blocksBeforeOf origContent.blockMap origBlock ++ mid ++
        blocksAfterOf origContent.blockMap origBlock ∧
      textsJoin mid = origBlock.text ∧
      charsJoin mid = origBlock.characterList ∧
      (strTake origBlock.text (selAt 1).anchorOffset).length +
        (strDrop origBlock.text (selAt 1).anchorOffset).length =
        origBlock.text.length) :=
  ⟨by decide, by decide, by decide, by decide,
   C1_split_character_conservation origContent (selAt 1) "kA" "kB" origBlock
     (by decide) (by decide) (by decide) (by decide) (by decide) (by decide)
     (by decide) (by decide)⟩

/-- Evaluation of the single-block fast path of `insertFragmentIntoContentState`. -/
theorem insertFragment_single_eq (cs : ContentState) (sel : SelectionState)
    (p : ContentBlock) (gk : Nat → String) (b : ContentBlock)
    (hcol : sel.isCollapsed = true)
    (hget : getBlock cs.blockMap sel.getStartKey = some b) :
    insertFragmentIntoContentState cs sel [p] gk = .ok
      { cs with
          blockMap := omSet cs.blockMap (singlePasteBlock b p sel.getStartOffset),
          selectionBefore := sel,
          selectionAfter :=
            { sel with
                anchorKey := sel.getStartKey,
                anchorOffset := sel.getStartOffset + p.text.length,
                focusKey := sel.getStartKey,
                focusOffset := sel.getStartOffset + p.text.length,
                isBackward := false } } := by
  unfold insertFragmentIntoContentState
  rw [hcol]
  simp only [if_true]
  rw [hget]

/-- When the target key is present, `Map.set` keeps the map's shape: the entry
is replaced in place. -/
theorem omSet_of_found {m : List ContentBlock} {k : String} {b nb : ContentBlock}
    (hfind : getBlock m k = some b) (hnb : nb.key = k) :
    omSet m nb = m.map (fun x => if x.key = nb.key then nb else x) := by
  rw [omSet, if_pos]
  simp only [List.any_eq_true, decide_eq_true_eq]
  exact ⟨b, getBlock_mem hfind, by rw [getBlock_key hfind, hnb]⟩

theorem getBlock_map_replace {m : List ContentBlock} {k : String} {b nb : ContentBlock}
    (hfind : getBlock m k = some b) (hnb : nb.key = k) :
    getBlock (m.map (fun x => if x.key = nb.key then nb else x)) k = some nb := by
  induction m with
  | nil => simp [getBlock] at hfind
  | cons a t ih =>
    rw [List.map_cons]
    by_cases ha : a.key = k
    · have hfa : (if a.key = nb.key then nb else a) = nb := by
        rw [if_pos]; rw [hnb, ha]
      rw [hfa]
      unfold getBlock
      rw [List.find?_cons_of_pos _ (by simp [hnb])]
    · have hfa : (if a.key = nb.key then nb else a) = a := by
        rw [if_neg]; rw [hnb]; exact ha
      rw [hfa]
      have hfind' : getBlock t k = some b := by
        unfold getBlock at hfind
        rwa [List.find?_cons_of_neg _ (by simp [ha])] at hfind
      unfold getBlock
      rw [List.find?_cons_of_neg _ (by simp [ha])]
      exact ih hfind'

/-- C4: single-block fragment insertion.  For a collapsed selection at offset
`k` of an existing target block, inserting a one-block fragment yields (same
key, in place) a block whose text is the target text with the fragment text
spliced in at `k` and whose characterList has the fragment characters spliced
in at the same position; the resulting selection is collapsed at offset
`k + len(fragment text)` of that same block key, and no new blocks are added. -/
theorem C4_single_block_insertion (cs : ContentState) (sel : SelectionState)
    (p : ContentBlock) (b : ContentBlock) (gk : Nat → String)
    (hcol : sel.isCollapsed = true)
    (hget : getBlock cs.blockMap sel.getStartKey = some b) :
    ∃ cs', insertFragmentIntoContentState cs sel [p] gk = .ok cs' ∧
      getBlock cs'.blockMap sel.getStartKey =
        some (singlePasteBlock b p sel.getStartOffset) ∧
      (singlePasteBlock b p sel.getStartOffset).text =
        strTake b.text sel.getStartOffset ++ p.text ++
          strDrop b.text sel.getStartOffset ∧
      (singlePasteBlock b p sel.getStartOffset).characterList =
        b.characterList.take sel.getStartOffset ++ p.characterList ++
          b.characterList.drop sel.getStartOffset ∧
      (singlePasteBlock b p sel.getStartOffset).key = b.key ∧
      cs'.blockMap.length = cs.blockMap.length ∧
      cs'.selectionAfter.anchorKey = sel.getStartKey ∧
      cs'.selectionAfter.focusKey = sel.getStartKey ∧
      cs'.selectionAfter.anchorOffset = sel.getStartOffset + p.text.length ∧
      cs'.selectionAfter.focusOffset = sel.getStartOffset + p.text.length ∧
      cs'.selectionAfter.isBackward = false := by
  have hnbkey : (singlePasteBlock b p sel.getStartOffset).key = sel.getStartKey := by
    show b.key = sel.getStartKey
    exact getBlock_key hget
  refine ⟨_, insertFragment_single_eq cs sel p gk b hcol hget, ?_, rfl, rfl, rfl,
    ?_, rfl, rfl, rfl, rfl, rfl⟩
  · show getBlock (omSet cs.blockMap (singlePasteBlock b p sel.getStartOffset))
      sel.getStartKey = some (singlePasteBlock b p sel.getStartOffset)
    rw [omSet_of_found hget hnbkey]
    exact getBlock_map_replace hget hnbkey
  · show (omSet cs.blockMap (singlePasteBlock b p sel.getStartOffset)).length =
      cs.blockMap.length
    rw [omSet_of_found hget hnbkey, List.length_map]

/-- Target block `"t"` with text `"abcd"`, for the insertion fixtures. -/
def targetBlockT : ContentBlock :=
  { key := "t", text := "abcd",
    characterList := [plainChar, plainChar, plainChar, plainChar] }

/-- One-block content state holding `targetBlockT`. -/
def targetContentT : ContentState := { blockMap := [targetBlockT] }

/-- Collapsed selection at offset 2 of block `"t"`. -/
def selT2 : SelectionState :=
  { anchorKey := "t", anchorOffset := 2, focusKey := "t", focusOffset := 2 }

/-- Pasted fragment block with text `"XY"` and a non-empty data map. -/
def fragBlockXY : ContentBlock :=
  { key := "f", text := "XY", characterList := [plainChar, plainChar],
    data := [("src", "paste")] }

/-- Witness for C4: inserting `"XY"` at offset 2 of `"abcd"`. -/
theorem C4_witness :
    selT2.isCollapsed = true ∧
    getBlock targetContentT.blockMap selT2.getStartKey = some targetBlockT ∧
    (∃ cs', insertFragmentIntoContentState targetContentT selT2 [fragBlockXY]
        genKey = .ok cs' ∧
      getBlock cs'.blockMap selT2.getStartKey =
        some (singlePasteBlock targetBlockT fragBlockXY selT2.getStartOffset) ∧
      (singlePasteBlock targetBlockT fragBlockXY selT2.getStartOffset).text =
        strTake targetBlockT.text selT2.getStartOffset ++ fragBlockXY.text ++
          strDrop targetBlockT.text selT2.getStartOffset ∧
      (singlePasteBlock targetBlockT fragBlockXY selT2.getStartOffset).characterList =
        targetBlockT.characterList.take selT2.getStartOffset ++
          fragBlockXY.characterList ++
          targetBlockT.characterList.drop selT2.getStartOffset ∧
      (singlePasteBlock targetBlockT fragBlockXY selT2.getStartOffset).key =
        targetBlockT.key ∧
      cs'.blockMap.length = targetContentT.blockMap.length ∧
      cs'.selectionAfter.anchorKey = selT2.getStartKey ∧
      cs'.selectionAfter.focusKey = selT2.getStartKey ∧
      cs'.selectionAfter.anchorOffset = selT2.getStartOffset + fragBlockXY.text.length ∧
      cs'.selectionAfter.focusOffset = selT2.getStartOffset + fragBlockXY.text.length ∧
      cs'.selectionAfter.isBackward = false) :=
  ⟨by decide, by decide,
   C4_single_block_insertion targetContentT selT2 fragBlockXY targetBlockT genKey
     (by decide) (by decide)⟩

/-- C10: data overwrite in the single-block fast path.  The updated target
block takes the pasted fragment block's `data` map (the target's own data is
not preserved), while its `key`, `type`, `depth` and `parentKey` are
unchanged; every block other than the target is untouched (still present,
identical, in the new map). -/
theorem C10_single_block_data_overwrite (cs : ContentState) (sel : SelectionState)
    (p : ContentBlock) (b : ContentBlock) (gk : Nat → String)
    (hcol : sel.isCollapsed = true)
    (hget : getBlock cs.blockMap sel.getStartKey = some b) :
    ∃ cs', insertFragmentIntoContentState cs sel [p] gk = .ok cs' ∧
      getBlock cs'.blockMap sel.getStartKey =
        some (singlePasteBlock b p sel.getStartOffset) ∧
      (singlePasteBlock b p sel.getStartOffset).data = p.data ∧
      (singlePasteBlock b p sel.getStartOffset).key = b.key ∧
      (singlePasteBlock b p sel.getStartOffset).type = b.type ∧
      (singlePasteBlock b p sel.getStartOffset).depth = b.depth ∧
      (singlePasteBlock b p sel.getStartOffset).parentKey = b.parentKey ∧
      ∀ bl ∈ cs.blockMap, bl.key ≠ sel.getStartKey → bl ∈ cs'.blockMap := by
  have hnbkey : (singlePasteBlock b p sel.getStartOffset).key = sel.getStartKey := by
    show b.key = sel.getStartKey
    exact getBlock_key hget
  refine ⟨_, insertFragment_single_eq cs sel p gk b hcol hget, ?_, rfl, rfl, rfl,
    rfl, rfl, ?_⟩
  · show getBlock (omSet cs.blockMap (singlePasteBlock b p sel.getStartOffset))
      sel.getStartKey = some (singlePasteBlock b p sel.getStartOffset)
    rw [omSet_of_found hget hnbkey]
    exact getBlock_map_replace hget hnbkey
  · intro bl hmem hne
    show bl ∈ omSet cs.blockMap (singlePasteBlock b p sel.getStartOffset)
    rw [omSet_of_found hget hnbkey]
    have : (if bl.key = (singlePasteBlock b p sel.getStartOffset).key
        then singlePasteBlock b p sel.getStartOffset else bl) = bl := by
      rw [if_neg]
      rw [hnbkey]
      exact hne
    exact this ▸ List.mem_map_of_mem _ hmem

/-- Witness for C10 at the concrete paste fixture (fragment data replaces
target data). -/
theorem C10_witness :
    selT2.isCollapsed = true ∧
    getBlock targetContentT.blockMap selT2.getStartKey = some targetBlockT ∧
    (∃ cs', insertFragmentIntoContentState targetContentT selT2 [fragBlockXY]
        genKey = .ok cs' ∧
      getBlock cs'.blockMap selT2.getStartKey =
        some (singlePasteBlock targetBlockT fragBlockXY selT2.getStartOffset) ∧
      (singlePasteBlock targetBlockT fragBlockXY selT2.getStartOffset).data =
        fragBlockXY.data ∧
      (singlePasteBlock targetBlockT fragBlockXY selT2.getStartOffset).key =
        targetBlockT.key ∧
      (singlePasteBlock targetBlockT fragBlockXY selT2.getStartOffset).type =
        targetBlockT.type ∧
      (singlePasteBlock targetBlockT fragBlockXY selT2.getStartOffset).depth =
        targetBlockT.depth ∧
      (singlePasteBlock targetBlockT fragBlockXY selT2.getStartOffset).parentKey =
        targetBlockT.parentKey ∧
      ∀ bl ∈ targetContentT.blockMap, bl.key ≠ selT2.getStartKey →
        bl ∈ cs'.blockMap) :=
  ⟨by decide, by decide,
   C10_single_block_data_overwrite targetContentT selT2 fragBlockXY targetBlockT
     genKey (by decide) (by decide)⟩

/-- The DOM an HTML parser produces for the empty document: a body element
with no children (`DOMBuilder` boundary, spec §6). -/
def emptyBodyBuilder : String → Option DomNode := fun _ =>
  some (.element "body" [])

/-- C6 counterexample: importing the empty HTML string (body with no children)
does **not** yield one empty paragraph block — `convertChunkToContentBlocks`
bails out on the empty chunk text (the `!chunk.text` guard), so the final
content-block list is `null`, even though the synthesized paragraph descriptor
is present in the chunk. -/
theorem C6_counterexample :
    convertFromHTMLtoContentBlocks "" emptyBodyBuilder [] 0 =
      some { contentBlocks := none } ∧
    (getChunkForHTML "" emptyBodyBuilder [] 0).map
      (fun p => p.1.blocks) =
      some [{ type := "paragraph", depth := 0, key := "", parentKey := "" }] ∧
    ¬ ∃ bl : ContentBlock,
        convertFromHTMLtoContentBlocks "" emptyBodyBuilder [] 0 =
          some { contentBlocks := some [bl] } := by
  refine ⟨by decide, by decide, ?_⟩
  rintro ⟨bl, h⟩
  rw [(by decide : convertFromHTMLtoContentBlocks "" emptyBodyBuilder [] 0 =
    some { contentBlocks := none })] at h
  simp at h

/-- C6 (amended): for empty or pure-whitespace HTML the traversal emits zero
block descriptors and `getChunkForHTML` does synthesize a single default
`paragraph` descriptor at depth 0 in the chunk — but that descriptor does
**not** survive to the final block list: the chunk text is empty, so
`convertChunkToContentBlocks` returns `null` and the import yields a null
content-block list instead of one empty paragraph block. -/
theorem C6_empty_import_yields_null (html : String)
    (builder : String → Option DomNode) (rm : BlockRenderMap) (n : Nat)
    (h1 : jsTrim html = "")
    (h2 : builder "" = some (.element "body" [])) :
    getChunkForHTML html builder rm n =
      some ({ text := "", inlines := [], entities := [],
              blocks := [{ type := "paragraph", depth := 0, key := "",
                           parentKey := "" }] }, n) ∧
    convertFromHTMLtoContentBlocks html builder rm n =
      some { contentBlocks := none } := by
  have hc : cleanHtml html = "" := by
    unfold cleanHtml
    rw [h1]
    rfl
  have hchunk : getChunkForHTML html builder rm n =
      some ({ text := "", inlines := [], entities := [],
              blocks := [{ type := "paragraph", depth := 0, key := "",
                           parentKey := "" }] }, n) := by
    unfold getChunkForHTML
    rw [hc]
    simp only [h2]
    rfl
  refine ⟨hchunk, ?_⟩
  unfold convertFromHTMLtoContentBlocks
  rw [hchunk]
  rfl

/-- Witness for C6 (amended) on a pure-whitespace document. -/
theorem C6_witness :
    (jsTrim "  " = "") ∧ (emptyBodyBuilder "" = some (.element "body" [])) ∧
    (getChunkForHTML "  " emptyBodyBuilder [] 5 =
      some ({ text := "", inlines := [], entities := [],
              blocks := [{ type := "paragraph", depth := 0, key := "",
                           parentKey := "" }] }, 5) ∧
    convertFromHTMLtoContentBlocks "  " emptyBodyBuilder [] 5 =
      some { contentBlocks := none }) :=
  ⟨by decide, rfl,
   C6_empty_import_yields_null "  " emptyBodyBuilder [] 5 (by decide) rfl⟩

/-- The DOM an HTML parser produces for
`"<div>hello</div><div>world</div>"`: a body with two div children wrapping
text nodes (`DOMBuilder` boundary, spec §6). -/
def twoDivBuilder : String → Option DomNode := fun _ =>
  some (.element "body"
    [.element "div" [.text "hello"], .element "div" [.text "world"]])

/-- C7: importing `"<div>hello</div><div>world</div>"` produces exactly two
blocks of type `paragraph` with texts `"hello"` and `"world"`, for **every**
block render map — in particular for any map that does not recognize `div` as
a block-level tag (the map only feeds the `workingBlocks` fallback selection,
which the traversal never reads; the block boundary between the two texts
comes from the sibling join mode). -/
theorem C7_two_div_import (rm : BlockRenderMap) :
    (convertFromHTMLtoContentBlocks "<div>hello</div><div>world</div>"
        twoDivBuilder rm 0).map
      (fun r => r.contentBlocks.map (fun bs => bs.map (fun bl => (bl.type, bl.text)))) =
      some (some [("paragraph", "hello"), ("paragraph", "world")]) := rfl

/-- Witness for C7 at a render map with a single paragraph entry rendered by
the `p` tag (a map that does not recognize `div`). -/
theorem C7_witness :
    (convertFromHTMLtoContentBlocks "<div>hello</div><div>world</div>"
        twoDivBuilder [("paragraph", { element := "p" })] 0).map
      (fun r => r.contentBlocks.map (fun bs => bs.map (fun bl => (bl.type, bl.text)))) =
      some (some [("paragraph", "hello"), ("paragraph", "world")]) :=
  C7_two_div_import [("paragraph", { element := "p" })]

/-- A chunk ending with the delimiter but containing an earlier delimiter too
(`"a\rb\r"`), with a paragraph-typed final descriptor. -/
def chunkA : Chunk :=
  { text := "a\rb\r", inlines := [], entities := [],
    blocks := [{ type := "paragraph", depth := 0, key := "x", parentKey := "" }] }

/-- A chunk starting with the delimiter, paragraph-typed first descriptor. -/
def chunkB : Chunk :=
  { text := "\r", inlines := [], entities := [],
    blocks := [{ type := "paragraph", depth := 0, key := "y", parentKey := "" }] }

/-- C8 counterexample: joining `A` (text `"a\rb\r"`, final descriptor
paragraph) with `B` (text `"\r"`, first descriptor paragraph) truncates `A`'s
text to everything before its **first** `'\r'`: the result text is `"a\r"`,
not `"a\rb" ++ "\r"` — the characters `"\rb"` of `A` are lost, so more than
the single trailing delimiter is dropped. -/
theorem C8_counterexample :
    strLast chunkA.text = "\r" ∧
    strTake chunkB.text 1 = "\r" ∧
    (chunkA.blocks.getLast?).map (·.type) = some "paragraph" ∧
    (joinChunks chunkA chunkB false false false).text = "a\r" ∧
    ("a\r" : String) ≠ "a\rb" ++ "\r" := by decide

theorem takeWhile_ne_append_singleton {w : List Char} (hw : '\r' ∉ w) :
    (w ++ ['\r']).takeWhile (fun c => c ≠ '\r') = w := by
  induction w with
  | nil => simp [List.takeWhile]
  | cons a t ih =>
    have ha : a ≠ '\r' := fun h => hw (h ▸ List.mem_cons_self a t)
    have ht : '\r' ∉ t := fun h => hw (List.mem_cons_of_mem _ h)
    simp only [List.cons_append, List.takeWhile_cons]
    have hd : (decide ¬(a = '\r')) = true := by simp [ha]
    simp only [ne_eq, hd, if_true]
    rw [ih ht]

/-- C8 (amended): when `A`'s text is `w ++ "\r"` with **no other delimiter in
`w`**, `B`'s text starts with `"\r"` and `A`'s last descriptor is
paragraph-typed, `joinChunks` (non-sibling mode) contributes `w` for `A` —
dropping exactly the one trailing delimiter — and the result is the same
whether or not `B`'s first descriptor is paragraph-typed (the two
near-duplicate branches have identical bodies).  In general the source
truncates `A.text` to the segment before its **first** delimiter
(`A.text.split('\r')[0]`), which loses text when `A` contains more than one
delimiter. -/
theorem C8_join_drops_one_delimiter (A B : Chunk) (rn uns : Bool) (w : List Char)
    (hA : A.text = ⟨w ++ ['\r']⟩) (hw : '\r' ∉ w)
    (hB : strTake B.text 1 = "\r")
    (hP : (A.blocks.getLast?).map (·.type) = some "paragraph") :
    (joinChunks A B rn false uns).text = (⟨w⟩ : String) ++ B.text := by
  have hlast : strLast A.text = "\r" := by
    rw [hA]
    show (⟨((w ++ ['\r']).drop ((w ++ ['\r']).length - 1))⟩ : String) = "\r"
    have hlen : (w ++ ['\r']).length - 1 = w.length := by
      simp
    rw [hlen, List.drop_left]
  have hsplit : splitFirstPart A.text = (⟨w⟩ : String) := by
    rw [hA]
    show (⟨((w ++ ['\r']).takeWhile (fun c => c ≠ '\r'))⟩ : String) = ⟨w⟩
    rw [takeWhile_ne_append_singleton hw]
  by_cases hBp : (B.blocks.head?).map (·.type) = some "paragraph"
  · simp only [joinChunks, hlast, hB, hP, hBp, hsplit]
    simp [hsplit]
  · simp only [joinChunks, hlast, hB, hP, hBp, hsplit]
    simp [hsplit, hBp]

/-- Witness for C8 (amended): `A` with text `"x\r"` (single, trailing
delimiter) against `chunkB`. -/
theorem C8_witness :
    (({ text := "x\r", inlines := [], entities := [],
        blocks := [{ type := "paragraph", depth := 0, key := "x",
                     parentKey := "" }] } : Chunk).text = ⟨['x', '\r']⟩) ∧
    ('\r' ∉ ['x']) ∧
    strTake chunkB.text 1 = "\r" ∧
    (joinChunks
        { text := "x\r", inlines := [], entities := [],
          blocks := [{ type := "paragraph", depth := 0, key := "x",
                       parentKey := "" }] }
        chunkB false false false).text = (⟨['x']⟩ : String) ++ chunkB.text :=
  ⟨by decide, by decide, by decide,
   C8_join_drops_one_delimiter
     { text := "x\r", inlines := [], entities := [],
       blocks := [{ type := "paragraph", depth := 0, key := "x", parentKey := "" }] }
     chunkB false false ['x'] (by decide) (by decide) (by decide) (by decide)⟩

/-- The DOM of a document whose body holds a single top-level text node. -/
def helloBuilder : String → Option DomNode := fun _ =>
  some (.element "body" [.text "hello"])

/-- C9 counterexample: importing top-level text (`"hello"`) yields a block
descriptor of depth `-1` — the traversal's initial depth, emitted unclamped by
the text-node base case — which is outside `[0, 4]`. -/
theorem C9_counterexample :
    (getChunkForHTML "hello" helloBuilder [] 0).map
      (fun p => p.1.blocks.map (·.depth)) = some [-1] ∧
    ¬ (0 : Int) ≤ -1 := by decide

theorem joinChunks_blocks_sub {A B : Chunk} {rn sib uns : Bool}
    {bd : BlockDescriptor}
    (h : bd ∈ (joinChunks A B rn sib uns).blocks) :
    bd ∈ A.blocks ∨ bd ∈ B.blocks := by
  simp only [joinChunks] at h
  split at h
  · exact Or.inr h
  · exact List.mem_append.mp h

theorem getBlockDividerChunk_depth (ty : String) (d : Int) (pk k : String)
    {bd : BlockDescriptor} (h : bd ∈ (getBlockDividerChunk ty d pk k).blocks) :
    0 ≤ bd.depth ∧ bd.depth ≤ 4 := by
  simp only [getBlockDividerChunk, List.mem_singleton] at h
  subst h
  refine ⟨le_max_left 0 _, ?_⟩
  show max 0 (min MAX_DEPTH d) ≤ 4
  apply max_le
  · decide
  · exact le_trans (min_le_left _ _) (by norm_num [MAX_DEPTH])

mutual

theorem genFragment_depth (node : DomNode) (style : List String) (ib : Bool)
    (d : Int) (e : Option String) (pk : String) (n : Nat) :
    ∀ bd ∈ (genFragment node style ib d e pk n).1.blocks,
      bd.depth = d ∨ (0 ≤ bd.depth ∧ bd.depth ≤ 4) := by
  match node with
  | .text s =>
    intro bd h
    simp only [genFragment, List.mem_singleton] at h
    subst h
    exact Or.inl rfl
  | .br =>
    intro bd h
    simp only [genFragment, List.mem_singleton] at h
    subst h
    exact Or.inl rfl
  | .element tag children =>
    intro bd h
    simp only [genFragment] at h
    refine genFragmentChildren_depth children _ ib d e _ _ _ _ _ ?_ bd h
    intro bd' h'
    by_cases hdiv : strToLower tag ∈ dividerTags
    · rw [if_pos hdiv] at h'
      rcases joinChunks_blocks_sub h' with h'' | h''
      · simp [emptyChunk] at h''
      · exact Or.inr (getBlockDividerChunk_depth _ d pk _ h'')
    · rw [if_neg hdiv] at h'
      simp [emptyChunk] at h'

theorem genFragmentChildren_depth (children : List DomNode) (style : List String)
    (ib : Bool) (d : Int) (e : Option String) (pk : String) (uns sib : Bool)
    (chunk : Chunk) (n : Nat)
    (hchunk : ∀ bd ∈ chunk.blocks, bd.depth = d ∨ (0 ≤ bd.depth ∧ bd.depth ≤ 4)) :
    ∀ bd ∈ (genFragmentChildren children style ib d e pk uns sib chunk n).1.blocks,
      bd.depth = d ∨ (0 ≤ bd.depth ∧ bd.depth ≤ 4) := by
  match children with
  | [] =>
    intro bd h
    simp only [genFragmentChildren] at h
    exact hchunk bd h
  | child :: rest =>
    intro bd h
    simp only [genFragmentChildren] at h
    refine genFragmentChildren_depth rest style ib d e pk uns _ _ _ ?_ bd h
    intro bd' h'
    rcases joinChunks_blocks_sub h' with h'' | h''
    · exact hchunk bd' h''
    · exact genFragment_depth child style true d e pk n bd' h''

end

/-- C9 (amended): depth clamping holds for the divider-chunk descriptors —
`getBlockDividerChunk` clamps into `[0, 4]` for every requested depth — but
text-node and line-break descriptors carry the traversal depth unclamped:
every descriptor `genFragment` produces has either exactly the traversal
depth `d` (which is `-1` for content not nested under a structural element,
since `getChunkForHTML` starts at `-1` and the recursion never changes it), or
a clamped divider depth within `[0, 4]`. -/
theorem C9_depth_clamping :
    (∀ (ty : String) (d : Int) (pk k : String),
      ∀ bd ∈ (getBlockDividerChunk ty d pk k).blocks,
        0 ≤ bd.depth ∧ bd.depth ≤ 4) ∧
    (∀ (node : DomNode) (style : List String) (ib : Bool) (d : Int)
        (e : Option String) (pk : String) (n : Nat),
      ∀ bd ∈ (genFragment node style ib d e pk n).1.blocks,
        bd.depth = d ∨ (0 ≤ bd.depth ∧ bd.depth ≤ 4)) :=
  ⟨fun ty d pk k _ h => getBlockDividerChunk_depth ty d pk k h,
   fun node style ib d e pk n => genFragment_depth node style ib d e pk n⟩

/-- The clamped descriptor emitted by a divider for requested depth 9. -/
def clampedLi : BlockDescriptor :=
  { type := "list-item", depth := 4, key := "k", parentKey := "" }

/-- The unclamped descriptor emitted for a top-level text node. -/
def textBd : BlockDescriptor :=
  { type := "paragraph", depth := -1, key := genKey 0, parentKey := "" }

/-- Witness for C9 (amended): a divider at requested depth 9 is clamped to 4;
a top-level text node keeps the raw depth `-1`. -/
theorem C9_witness :
    (clampedLi ∈ (getBlockDividerChunk "list-item" 9 "" "k").blocks ∧
      0 ≤ clampedLi.depth ∧ clampedLi.depth ≤ 4) ∧
    (textBd ∈ (genFragment (.text "a") [] false (-1) none "" 0).1.blocks ∧
      (textBd.depth = -1 ∨ (0 ≤ textBd.depth ∧ textBd.depth ≤ 4))) :=
  ⟨⟨by decide, C9_depth_clamping.1 "list-item" 9 "" "k" clampedLi (by decide)⟩,
   ⟨by decide, C9_depth_clamping.2 (.text "a") [] false (-1) none "" 0
      textBd (by decide)⟩⟩

end DraftJs
